import Mathlib

/-!
# Verification of the ALAN Planner–Worker–Memory execution loop

Shallow embedding of the core subsystem of the ALAN repository:

* `src/alan_app/alan_core_engine.py` — namespace `Eng` (`Memory`, `Planner`,
  `Worker`, `AlanCore.process`);
* `src/alan_core/{planner,worker,memory,hrm}.py` — namespace `CoreA`
  (`Planner`, `Worker`, `Memory`, `HRM.run`).

Python strings are `String`, floats (timestamps / scores) are `ℚ`,
dicts used as result payloads are association lists, and `uuid.uuid4()`
draws are modelled as reads from an injected supply `gen : Nat → String`.
Wall-clock durations (the `time` field of execution results) are not
modelled; they never influence control flow.
-/

/-! ## Python string primitives -/

/-- `listStartsWith pat l`: `l` begins with `pat` (character lists). -/
def listStartsWith : List Char → List Char → Bool
  | [], _ => true
  | _ :: _, [] => false
  | a :: pat, b :: l => a = b && listStartsWith pat l

/-- `hasSubList pat l`: `pat` occurs contiguously inside `l`.
Mirrors Python's `pat in l` substring test (the empty pattern matches). -/
def hasSubList (pat : List Char) : List Char → Bool
  | [] => pat.isEmpty
  | b :: l => listStartsWith pat (b :: l) || hasSubList pat l

/-- Python `pat in s` on strings. -/
def strHasSub (pat s : String) : Bool := hasSubList pat.data s.data

/-- ASCII lower-casing of one character (Python `str.lower` restricted to
the ASCII descriptions the program manipulates). -/
def charLower (c : Char) : Char :=
  if 'A' ≤ c ∧ c ≤ 'Z' then Char.ofNat (c.toNat + 32) else c

/-- Python `s.lower()`. -/
def strLower (s : String) : String := ⟨s.data.map charLower⟩

/-- Whitespace stripped by Python `str.strip()`. -/
def isPySpace (c : Char) : Bool := c = ' ' || c = '\t' || c = '\n' || c = '\r'

/-- Python `s.strip()`. -/
def strStrip (s : String) : String :=
  ⟨((s.data.dropWhile isPySpace).reverse.dropWhile isPySpace).reverse⟩

/-- Python `s.startswith(pat)`. -/
def strStarts (pat s : String) : Bool := listStartsWith pat.data s.data

/-- Python `s.endswith(pat)`. -/
def strEnds (pat s : String) : Bool := listStartsWith pat.data.reverse s.data.reverse

/-! ## Python values and result payloads -/

/-- The payload values the program actually stores in its result dicts. -/
inductive PyVal where
  | str (s : String)
  | bool (b : Bool)
  | strs (l : List String)
deriving DecidableEq, Repr

/-- A Python dict used as a result payload, e.g. `{"fixed": True}`. -/
abbrev Payload := List (String × PyVal)

/-- Python truthiness of `payload.get(k)` (missing key `.get` returns
`None`, which is falsy; `""`, `[]` and `False` are falsy). Used for
`res.get("result",{}).get("fixed")` in `HRM.run`. -/
def getTruthy (p : Payload) (k : String) : Bool :=
  match p.lookup k with
  | some (.bool b) => b
  | some (.str s) => s ≠ ""
  | some (.strs l) => l ≠ []
  | none => false

/-! ## Stable descending sort

`list.sort(key=score, reverse=True)` in Python is a stable sort: elements
are ordered by strictly decreasing key, and elements with equal keys keep
their original relative order.  `sortDesc` implements exactly that
specification as an insertion sort (stable sorting is extensionally
unique, so any correct implementation of Python's sort agrees with it). -/

/-- Insert `x` before the first element whose key is `≤ key x`
(elements passed over have strictly larger keys, so equal-key elements
end up in original order). -/
def insertDesc {α : Type} (key : α → ℚ) (x : α) : List α → List α
  | [] => [x]
  | y :: ys => if key y ≤ key x then x :: y :: ys else y :: insertDesc key x ys

/-- Stable sort by strictly decreasing `key`. -/
def sortDesc {α : Type} (key : α → ℚ) : List α → List α
  | [] => []
  | x :: xs => insertDesc key x (sortDesc key xs)

theorem mem_insertDesc {α : Type} (key : α → ℚ) (x : α) (l : List α) (z : α) :
    z ∈ insertDesc key x l ↔ z = x ∨ z ∈ l := by
  induction l with
  | nil => simp [insertDesc]
  | cons y ys ih =>
    by_cases h : key y ≤ key x
    · simp [insertDesc, h]
    · simp only [insertDesc, if_neg h, List.mem_cons, ih]
      tauto

theorem insertDesc_perm {α : Type} (key : α → ℚ) (x : α) (l : List α) :
    (insertDesc key x l).Perm (x :: l) := by
  induction l with
  | nil => simp [insertDesc]
  | cons y ys ih =>
    by_cases h : key y ≤ key x
    · simp [insertDesc, h]
    · simp only [insertDesc, if_neg h]
      exact (ih.cons y).trans (List.Perm.swap x y ys)

theorem sortDesc_perm {α : Type} (key : α → ℚ) (l : List α) :
    (sortDesc key l).Perm l := by
  induction l with
  | nil => simp [sortDesc]
  | cons x xs ih =>
    exact (insertDesc_perm key x (sortDesc key xs)).trans (ih.cons x)

theorem insertDesc_pairwise {α : Type} (key : α → ℚ) (x : α) (l : List α)
    (h : l.Pairwise (fun a b => key b ≤ key a)) :
    (insertDesc key x l).Pairwise (fun a b => key b ≤ key a) := by
  induction l with
  | nil => simp [insertDesc]
  | cons y ys ih =>
    rcases List.pairwise_cons.mp h with ⟨hy, hys⟩
    by_cases hxy : key y ≤ key x
    · rw [insertDesc, if_pos hxy]
      refine List.pairwise_cons.mpr ⟨?_, h⟩
      intro z hz
      rcases List.mem_cons.mp hz with rfl | hz
      · exact hxy
      · exact le_trans (hy z hz) hxy
    · rw [insertDesc, if_neg hxy]
      refine List.pairwise_cons.mpr ⟨?_, ih hys⟩
      intro z hz
      rcases (mem_insertDesc key x ys z).mp hz with rfl | hz
      · exact le_of_not_le hxy
      · exact hy z hz

theorem sortDesc_pairwise {α : Type} (key : α → ℚ) (l : List α) :
    (sortDesc key l).Pairwise (fun a b => key b ≤ key a) := by
  induction l with
  | nil => simp [sortDesc]
  | cons x xs ih => exact insertDesc_pairwise key x (sortDesc key xs) ih

theorem insertDesc_filter_eq {α : Type} (key : α → ℚ) (x : α) (l : List α)
    (s : ℚ) (hx : key x = s) :
    (insertDesc key x l).filter (fun z => key z = s) =
      x :: l.filter (fun z => key z = s) := by
  induction l with
  | nil => simp [insertDesc, hx]
  | cons y ys ih =>
    by_cases h : key y ≤ key x
    · rw [insertDesc, if_pos h]
      simp [List.filter_cons, hx]
    · have hy : ¬ (key y = s) := fun hys => h (le_of_eq (by rw [hys, hx]))
      rw [insertDesc, if_neg h, List.filter_cons, List.filter_cons, ih]
      simp [hy]

theorem insertDesc_filter_ne {α : Type} (key : α → ℚ) (x : α) (l : List α)
    (s : ℚ) (hx : ¬ key x = s) :
    (insertDesc key x l).filter (fun z => key z = s) =
      l.filter (fun z => key z = s) := by
  induction l with
  | nil => simp [insertDesc, hx]
  | cons y ys ih =>
    by_cases h : key y ≤ key x
    · simp [insertDesc, h, hx]
    · simp only [insertDesc, if_neg h, List.filter_cons, ih]

/-- Stability: for every key value `s`, the elements of key `s` appear in
the sorted list in exactly their original order. -/
theorem sortDesc_stable {α : Type} (key : α → ℚ) (l : List α) (s : ℚ) :
    (sortDesc key l).filter (fun z => key z = s) =
      l.filter (fun z => key z = s) := by
  induction l with
  | nil => simp [sortDesc]
  | cons x xs ih =>
    by_cases hx : key x = s
    · rw [sortDesc, insertDesc_filter_eq key x _ s hx, ih, List.filter_cons]
      simp [hx]
    · rw [sortDesc, insertDesc_filter_ne key x _ s hx, ih, List.filter_cons]
      simp [hx]

/-! ## Bounded short-term append (`Memory.write`, short-term branch)

Both memory implementations append the new item at the tail and, when the
bound is exceeded, `pop(0)` the oldest element: bound 200 in
`alan_core/memory.py`, bound 100 in `alan_app/alan_core_engine.py`. -/

/-- `self.short.append(item); if len(self.short) > B: self.short.pop(0)`. -/
def boundedAppend {α : Type} (B : Nat) (s : List α) (x : α) : List α :=
  if B < (s ++ [x]).length then (s ++ [x]).drop 1 else s ++ [x]

theorem boundedAppend_length {α : Type} (B : Nat) (s : List α) (x : α)
    (h : s.length ≤ B) : (boundedAppend B s x).length ≤ B := by
  unfold boundedAppend
  split <;> simp_all

theorem foldl_boundedAppend {α : Type} (B : Nat) :
    ∀ (xs s : List α), s.length ≤ B →
      xs.foldl (boundedAppend B) s =
        (s ++ xs).drop (s.length + xs.length - B) := by
  intro xs
  induction xs with
  | nil =>
    intro s hs
    simp only [List.foldl_nil, List.append_nil, List.length_nil, Nat.add_zero,
      Nat.sub_eq_zero_of_le hs, List.drop_zero]
  | cons x xs ih =>
    intro s hs
    rw [List.foldl_cons]
    by_cases hB : B < s.length + 1
    · have hsB : s.length = B := by omega
      have hstep : boundedAppend B s x = (s ++ [x]).drop 1 := by
        unfold boundedAppend
        rw [if_pos (by simp; omega)]
      rw [hstep]
      have hlen : ((s ++ [x]).drop 1).length = B := by simp [hsB]
      rw [ih _ (le_of_eq hlen), hlen]
      have hflat : (s ++ [x]).drop 1 ++ xs = (s ++ x :: xs).drop 1 := by
        rcases s with _ | ⟨a, s⟩ <;> simp
      rw [hflat, List.drop_drop]
      congr 1
      simp only [List.length_cons, hsB]
      omega
    · have hstep : boundedAppend B s x = s ++ [x] := by
        unfold boundedAppend
        rw [if_neg (by simp; omega)]
      rw [hstep, ih _ (by simp; omega)]
      have hidx : (s ++ [x]).length + xs.length - B = s.length + (x :: xs).length - B := by
        simp only [List.length_append, List.length_singleton, List.length_cons,
          List.length_nil]
        omega
      have hflat : (s ++ [x]) ++ xs = s ++ x :: xs := by simp
      rw [hidx, hflat]

/-- Python dict assignment `d[k] = v`: overwrite in place if the key
exists, else append. -/
def dictInsert {β : Type} (m : List (String × β)) (k : String) (v : β) :
    List (String × β) :=
  if (m.map Prod.fst).contains k then
    m.map (fun kv => if kv.1 = k then (k, v) else kv)
  else m ++ [(k, v)]

/-! ## `alan_app/alan_core_engine.py` — namespace `Eng` -/

namespace Eng

/-- `MemoryItem` of the engine: id, timestamp, kind, content, static score
(default 1.0).  `content` is the stringified payload (`str(item.content)`
is what `retrieve` scores against). -/
structure MemoryItem where
  id : String
  timestamp : ℚ
  kind : String
  content : String
  score : ℚ := 1
deriving DecidableEq, Repr

/-- The engine's `Memory`: short-term list and long-term dict
(modelled as an association list in insertion order, which is how Python
iterates `dict.values()`). -/
structure Memory where
  short_term : List MemoryItem := []
  long_term : List (String × MemoryItem) := []
deriving DecidableEq, Repr

/-- `Memory.write` of the engine: fresh item (id and timestamp supplied by
the environment), long-term dict insert or short-term append bounded at
100. -/
def write (mem : Memory) (id : String) (ts : ℚ) (kind content : String)
    (long_term : Bool) : Memory :=
  let item : MemoryItem := { id := id, timestamp := ts, kind := kind, content := content }
  if long_term then { mem with long_term := dictInsert mem.long_term item.id item }
  else { mem with short_term := boundedAppend 100 mem.short_term item }

/-- The candidate pool of `retrieve`:
`list(self.short_term) + list(self.long_term.values())`. -/
def pool (mem : Memory) : List MemoryItem :=
  mem.short_term ++ mem.long_term.map Prod.snd

/-- The `score` closure of `Memory.retrieve`: +10 keyword bonus when the
lowercased query occurs in the lowercased stringified content, plus a
recency term decaying linearly from 1 at write time to 0 at one hour
(clamped below at 0), plus the item's static score. -/
def itemScore (now : ℚ) (query : String) (item : MemoryItem) : ℚ :=
  (if strHasSub (strLower query) (strLower item.content) then 10 else 0)
    + max 0 (1 - (now - item.timestamp) / 3600)
    + item.score

/-- `Memory.retrieve`: sort the candidate pool by decreasing score
(Python's stable sort) and truncate to `limit`.  `now` is the instant at
which the retrieval runs. -/
def retrieve (mem : Memory) (now : ℚ) (query : String) (limit : Nat) :
    List MemoryItem :=
  (sortDesc (itemScore now query) (pool mem)).take limit

/-- The engine's `Task` (no priority field). -/
structure Task where
  id : String
  description : String
  depth : Nat := 0
deriving DecidableEq, Repr

/-- The input record produced by `InputProcessor.preprocess`
(the unused `tokens` field is omitted). -/
structure InputRecord where
  text : String
  intent : String
deriving DecidableEq, Repr

/-- `InputProcessor._detect_intent`. -/
def detectIntent (text : String) : String :=
  if strStarts "create" (strLower text) || strStarts "build" (strLower text) then "create"
  else if strStarts "fix" (strLower text) || strStarts "debug" (strLower text) then "debug"
  else if strEnds "?" (strLower text) then "query"
  else "general"

/-- `InputProcessor.preprocess` (raw text → structured record). -/
def preprocess (raw : String) : InputRecord :=
  let text := strStrip raw
  { text := text, intent := detectIntent text }

/-- `Planner.decompose` of the engine.  Note the source fixes
`depth := 1` on every generated subtask. -/
def decompose (gen : Nat → String) (task : Task) : List Task :=
  if strHasSub "create" (strLower task.description)
      || strHasSub "build" (strLower task.description) then
    [ { id := gen 0, description := "scaffold project structure", depth := 1 },
      { id := gen 1, description := "create core modules", depth := 1 },
      { id := gen 2, description := "write basic tests", depth := 1 } ]
  else if strHasSub "debug" (strLower task.description)
      || strHasSub "fix" (strLower task.description) then
    [ { id := gen 0, description := "reproduce issue", depth := 1 },
      { id := gen 1, description := "apply fix", depth := 1 },
      { id := gen 2, description := "write regression test", depth := 1 } ]
  else
    [ { id := gen 0, description := "analyze", depth := 1 },
      { id := gen 1, description := "respond", depth := 1 } ]

/-- `Planner.plan` of the engine: build the synthetic root (depth 0,
drawing the first fresh id) and decompose it. -/
def plan (gen : Nat → String) (inp : InputRecord) : List Task :=
  decompose (fun n => gen (n + 1))
    { id := gen 0, description := "Handle intent=" ++ inp.intent ++ ": " ++ inp.text, depth := 0 }

/-- `Worker.execute` of the engine, result payload only (the dispatch is
on the raw description, not lowercased, exactly as in the source).  The
accompanying `task_result` memory write appends to short-term memory and
never feeds back into control flow. -/
def executeResult (t : Task) : Payload :=
  if strHasSub "scaffold" t.description then
    [("files", .strs ["README.md", "src/", "alan_core/"])]
  else if strHasSub "core modules" t.description then
    [("modules", .strs ["planner", "worker", "memory", "io"])]
  else if strHasSub "tests" t.description then
    [("tests", .strs ["test_basic_flow.py"])]
  else if strHasSub "reproduce" t.description then
    [("status", .str "reproduced sample input")]
  else if strHasSub "apply fix" t.description then
    [("status", .str "fix applied")]
  else if strHasSub "analyze" t.description then
    [("analysis", .str "short analysis summary")]
  else if strHasSub "respond" t.description then
    [("response", .str "Here's a helpful answer.")]
  else
    [("echo", .str t.description)]

end Eng

/-! ## The run-loop result records -/

/-- One entry of the accumulated results list: either the execution
record `{"task_id": ..., "description": ..., "result": ...}` or the
depth-skip marker `{"task": ..., "skipped": True}`.  The `depth`
argument of `executed` is ghost instrumentation recording the frontier
depth at which the task was popped; it does not appear in the Python
dict and never influences the computation. -/
inductive RunResult where
  | executed (taskId description : String) (depth : Nat) (result : Payload)
  | skipped (task : String)
deriving DecidableEq, Repr

/-- The task description a record is about. -/
def RunResult.about : RunResult → String
  | .executed _ d _ _ => d
  | .skipped t => t

/-! ## Frontier measure

Each frontier entry of depth `d` weighs `3 ^ (maxDepth + 1 - d)`.
Popping an entry and inserting at most two children at depth `d + 1`
strictly decreases the total weight, which bounds the number of loop
iterations and proves the drain loop terminates. -/

/-- Weight of one frontier entry. -/
def frontWt (maxDepth d : Nat) : Nat := 3 ^ (maxDepth + 1 - d)

/-- Total weight of a frontier. -/
def frontMeasure {τ : Type} (maxDepth : Nat) (fr : List (τ × Nat)) : Nat :=
  (fr.map fun p => frontWt maxDepth p.2).sum

theorem frontWt_pos (maxDepth d : Nat) : 1 ≤ frontWt maxDepth d :=
  Nat.one_le_pow _ _ (by omega)

theorem frontWt_child (maxDepth d : Nat) (h : d ≤ maxDepth) :
    frontWt maxDepth d = 3 * frontWt maxDepth (d + 1) := by
  unfold frontWt
  have : maxDepth + 1 - d = (maxDepth + 1 - (d + 1)) + 1 := by omega
  rw [this, pow_succ]
  ring

theorem frontMeasure_cons {τ : Type} (maxDepth : Nat) (x : τ) (d : Nat)
    (rest : List (τ × Nat)) :
    frontMeasure maxDepth ((x, d) :: rest) =
      frontWt maxDepth d + frontMeasure maxDepth rest := by
  simp [frontMeasure]

namespace Eng

/-- `AlanCore.process`, drain loop, one-entry denotation: the records
produced by a popped `(task, depth)` pair together with all of its
dynamically spawned descendants.  When a `"scaffold"` task executes at
`depth < maxDepth`, the engine builds `sub = [README, src folder]`
(drawing their ids in that order) and does `frontier.insert(0, ...)` for
each in turn, so the *src folder* subtree is drained first.  `ctr`
indexes the id supply; the updated counter is returned. -/
def entry (gen : Nat → String) (maxDepth : Nat) (t : Task) (d : Nat) (ctr : Nat) :
    List RunResult × Nat :=
  if maxDepth < d then ([.skipped t.description], ctr)
  else
    let res := executeResult t
    if _h : strHasSub "scaffold" t.description = true ∧ d < maxDepth then
      let readme : Task := { id := gen ctr, description := "create README", depth := d + 1 }
      let src : Task := { id := gen (ctr + 1), description := "create src folder", depth := d + 1 }
      let rSrc := entry gen maxDepth src (d + 1) (ctr + 2)
      let rReadme := entry gen maxDepth readme (d + 1) rSrc.2
      (.executed t.id t.description d res :: (rSrc.1 ++ rReadme.1), rReadme.2)
    else
      ([.executed t.id t.description d res], ctr)
termination_by maxDepth - d
decreasing_by all_goals omega

theorem engEntry_skip (gen : Nat → String) (maxDepth : Nat) (t : Task) (d ctr : Nat)
    (h : maxDepth < d) :
    entry gen maxDepth t d ctr = ([.skipped t.description], ctr) := by
  rw [entry.eq_def, if_pos h]

theorem engEntry_spawn (gen : Nat → String) (maxDepth : Nat) (t : Task) (d ctr : Nat)
    (hd : ¬ maxDepth < d)
    (hs : strHasSub "scaffold" t.description = true ∧ d < maxDepth) :
    entry gen maxDepth t d ctr =
      (let readme : Task := { id := gen ctr, description := "create README", depth := d + 1 }
       let src : Task := { id := gen (ctr + 1), description := "create src folder", depth := d + 1 }
       let rSrc := entry gen maxDepth src (d + 1) (ctr + 2)
       let rReadme := entry gen maxDepth readme (d + 1) rSrc.2
       (.executed t.id t.description d (executeResult t) :: (rSrc.1 ++ rReadme.1),
        rReadme.2)) := by
  rw [entry.eq_def, if_neg hd]
  simp only [dif_pos hs]

theorem engEntry_plain (gen : Nat → String) (maxDepth : Nat) (t : Task) (d ctr : Nat)
    (hd : ¬ maxDepth < d)
    (hs : ¬ (strHasSub "scaffold" t.description = true ∧ d < maxDepth)) :
    entry gen maxDepth t d ctr =
      ([.executed t.id t.description d (executeResult t)], ctr) := by
  rw [entry.eq_def, if_neg hd]
  simp only [dif_neg hs]

/-- Denotation of a whole frontier: concatenation of the entry
denotations, threading the id counter left to right. -/
def flatRun (gen : Nat → String) (maxDepth : Nat) :
    List (Task × Nat) → Nat → List RunResult × Nat
  | [], ctr => ([], ctr)
  | p :: rest, ctr =>
    let r1 := entry gen maxDepth p.1 p.2 ctr
    let r2 := flatRun gen maxDepth rest r1.2
    (r1.1 ++ r2.1, r2.2)

/-- The drain loop of `AlanCore.process`, exactly as in the source:
pop the front pair, append a skip marker if the depth bound is exceeded,
otherwise execute and — for a `"scaffold"` task below the bound — insert
the two spawned subtasks one by one at the front of the frontier.
`fuel` bounds the number of iterations; `none` means the fuel ran out. -/
def loopF (gen : Nat → String) (maxDepth : Nat) :
    Nat → List (Task × Nat) → List RunResult → Nat →
      Option (List RunResult × Nat)
  | _, [], acc, ctr => some (acc.reverse, ctr)
  | 0, _ :: _, _, _ => none
  | fuel + 1, (t, d) :: rest, acc, ctr =>
    if maxDepth < d then
      loopF gen maxDepth fuel rest (.skipped t.description :: acc) ctr
    else
      let res := executeResult t
      let acc' := RunResult.executed t.id t.description d res :: acc
      if strHasSub "scaffold" t.description = true ∧ d < maxDepth then
        let readme : Task := { id := gen ctr, description := "create README", depth := d + 1 }
        let src : Task := { id := gen (ctr + 1), description := "create src folder", depth := d + 1 }
        loopF gen maxDepth fuel ((src, d + 1) :: (readme, d + 1) :: rest) acc' (ctr + 2)
      else
        loopF gen maxDepth fuel rest acc' ctr

/-- Master lemma: with fuel at least the frontier measure, the drain
loop completes and its result is the left-to-right concatenation of the
per-entry denotations — spawned children are drained (and recorded)
strictly before everything that was already queued behind their parent. -/
theorem engLoopF_eq (gen : Nat → String) (maxDepth : Nat) :
    ∀ (fuel : Nat) (fr : List (Task × Nat)) (acc : List RunResult) (ctr : Nat),
      frontMeasure maxDepth fr ≤ fuel →
      loopF gen maxDepth fuel fr acc ctr =
        some (acc.reverse ++ (flatRun gen maxDepth fr ctr).1,
              (flatRun gen maxDepth fr ctr).2) := by
  intro fuel
  induction fuel with
  | zero =>
    intro fr acc ctr hm
    cases fr with
    | nil => simp [loopF, flatRun]
    | cons p rest =>
      exfalso
      obtain ⟨t, d⟩ := p
      have h1 := frontWt_pos maxDepth d
      rw [frontMeasure_cons] at hm
      omega
  | succ fuel ih =>
    intro fr acc ctr hm
    cases fr with
    | nil => simp [loopF, flatRun]
    | cons p rest =>
      obtain ⟨t, d⟩ := p
      rw [frontMeasure_cons] at hm
      have hwt := frontWt_pos maxDepth d
      by_cases hd : maxDepth < d
      · rw [loopF, if_pos hd, ih rest _ ctr (by omega)]
        rw [flatRun, engEntry_skip gen maxDepth t d ctr hd]
        simp [flatRun]
      · by_cases hs : strHasSub "scaffold" t.description = true ∧ d < maxDepth
        · have hchild : frontWt maxDepth d = 3 * frontWt maxDepth (d + 1) :=
            frontWt_child maxDepth d (by omega)
          have hcpos := frontWt_pos maxDepth (d + 1)
          rw [loopF, if_neg hd]
          simp only [if_pos hs]
          rw [ih _ _ (ctr + 2)
            (by rw [frontMeasure_cons, frontMeasure_cons]; omega)]
          conv_rhs => rw [flatRun, engEntry_spawn gen maxDepth t d ctr hd hs]
          simp [flatRun, List.append_assoc]
        · rw [loopF, if_neg hd]
          simp only [if_neg hs]
          rw [ih rest _ ctr (by omega)]
          rw [flatRun, engEntry_plain gen maxDepth t d ctr hd hs]
          simp [flatRun]

end Eng

/-! ## `alan_core/` — namespace `CoreA` -/

namespace CoreA

/-- `alan_core/planner.py` `Task` (priority defaults to 5, the open
`metadata` bag is never consulted and is omitted). -/
structure Task where
  id : String
  description : String
  depth : Nat := 0
  priority : Int := 5
deriving DecidableEq, Repr

/-- Input record consumed by `Planner.plan` (`processed_input`). -/
structure InputRecord where
  text : String
  intent : String
deriving DecidableEq, Repr

/-- `Planner.decompose` of `alan_core/planner.py`.  As in the source,
every generated subtask carries the literal `depth := 1`. -/
def decompose (gen : Nat → String) (task : Task) : List Task :=
  if strHasSub "create" (strLower task.description)
      || strHasSub "build" (strLower task.description) then
    [ { id := gen 0, description := "scaffold project", depth := 1, priority := 2 },
      { id := gen 1, description := "create core modules", depth := 1, priority := 3 },
      { id := gen 2, description := "write tests", depth := 1, priority := 4 } ]
  else if strHasSub "debug" (strLower task.description)
      || strHasSub "fix" (strLower task.description) then
    [ { id := gen 0, description := "collect logs", depth := 1, priority := 2 },
      { id := gen 1, description := "reproduce", depth := 1, priority := 3 },
      { id := gen 2, description := "apply fix", depth := 1, priority := 4 } ]
  else
    [ { id := gen 0, description := "analyze", depth := 1, priority := 5 } ]

/-- `Planner.plan` of `alan_core/planner.py`: synthesize the root task
`f"{intent}: {text}"` at depth 0 (drawing the first fresh id) and
decompose it. -/
def plan (gen : Nat → String) (inp : InputRecord) : List Task :=
  decompose (fun n => gen (n + 1))
    { id := gen 0, description := inp.intent ++ ": " ++ inp.text, depth := 0, priority := 1 }

/-- `Worker.execute` of `alan_core/worker.py`, result payload only, for a
hook that cannot raise (`llm_call=None` or a total hook).  Dispatch is on
the lowercased description.  The unconditional `task_result` memory write
appends to short-term memory and never feeds back into control flow. -/
def executeResult (llm : Option (String → PyVal)) (t : Task) : Payload :=
  let desc := strLower t.description
  if strHasSub "scaffold" desc || strHasSub "scaffold project" desc then
    [("files", .strs ["README.md", "src/", "alan_core/"])]
  else if strHasSub "create core modules" desc || strHasSub "core modules" desc then
    [("modules", .strs ["planner", "worker", "memory", "io"])]
  else if strHasSub "write tests" desc then
    [("tests", .strs ["test_basic_flow.py"])]
  else if strHasSub "collect logs" desc then
    [("logs", .str "no logs (simulated)")]
  else if strHasSub "reproduce" desc then
    [("reproduce", .bool true)]
  else if strHasSub "apply fix" desc then
    [("fixed", .bool true)]
  else
    match llm with
    | some f => [("llm", f t.description)]
    | none => [("echo", .str t.description)]

/-- `Worker.execute` with a caller-supplied hook that may raise
(`Except.error` models a Python exception).  The source wraps no
`try/except` around `self.llm_call(task.description)`, so an exception
raised by the hook propagates out of `execute`. -/
def executeE (llm : Option (String → Except String PyVal)) (t : Task) :
    Except String Payload :=
  let desc := strLower t.description
  if strHasSub "scaffold" desc || strHasSub "scaffold project" desc then
    .ok [("files", .strs ["README.md", "src/", "alan_core/"])]
  else if strHasSub "create core modules" desc || strHasSub "core modules" desc then
    .ok [("modules", .strs ["planner", "worker", "memory", "io"])]
  else if strHasSub "write tests" desc then
    .ok [("tests", .strs ["test_basic_flow.py"])]
  else if strHasSub "collect logs" desc then
    .ok [("logs", .str "no logs (simulated)")]
  else if strHasSub "reproduce" desc then
    .ok [("reproduce", .bool true)]
  else if strHasSub "apply fix" desc then
    .ok [("fixed", .bool true)]
  else
    match llm with
    | some f => (f t.description).map (fun v => [("llm", v)])
    | none => .ok [("echo", .str t.description)]

/-- `Worker.run_shell`: the external command runner is an oracle
`runner : cmd → Except failure-message output`.  The body is one
`try/except Exception` — success wraps stdout, any failure (non-zero
exit, timeout, OS error) becomes an `{"error": str(e)}` payload. -/
def runShell (runner : String → Except String String) (cmd : String) : Payload :=
  match runner cmd with
  | .ok out => [("stdout", .str out)]
  | .error e => [("error", .str e)]

/-- The `"verify fix"` follow-up task synthesized by `HRM.run`
(`type(task)(id="verify-"+task.id, description="verify fix",
depth=depth+1)`; priority keeps its default). -/
def verifyTask (t : Task) (depth : Nat) : Task :=
  { id := "verify-" ++ t.id, description := "verify fix", depth := depth + 1 }

/-- `HRM.run`, drain loop, one-entry denotation: the records produced by
a popped `(task, depth)` pair together with its spawned descendants.
When an executed result's payload has a truthy `"fixed"` key, a
`"verify fix"` task is inserted at the front of the frontier at
`depth + 1` (with no depth guard — the guard is applied when it is
popped). -/
def entry (maxDepth : Nat) (llm : Option (String → PyVal)) (t : Task) (d : Nat) :
    List RunResult :=
  if _h : maxDepth < d then [.skipped t.description]
  else
    let res := executeResult llm t
    RunResult.executed t.id t.description d res ::
      (if getTruthy res "fixed" then entry maxDepth llm (verifyTask t d) (d + 1) else [])
termination_by maxDepth + 2 - d
decreasing_by omega

theorem hrmEntry_skip (maxDepth : Nat) (llm : Option (String → PyVal))
    (t : Task) (d : Nat) (h : maxDepth < d) :
    entry maxDepth llm t d = [.skipped t.description] := by
  rw [entry.eq_def, dif_pos h]

theorem hrmEntry_exec (maxDepth : Nat) (llm : Option (String → PyVal))
    (t : Task) (d : Nat) (h : ¬ maxDepth < d) :
    entry maxDepth llm t d =
      RunResult.executed t.id t.description d (executeResult llm t) ::
        (if getTruthy (executeResult llm t) "fixed" then
          entry maxDepth llm (verifyTask t d) (d + 1) else []) := by
  rw [entry.eq_def, dif_neg h]

/-- Denotation of a whole frontier. -/
def flatRun (maxDepth : Nat) (llm : Option (String → PyVal)) :
    List (Task × Nat) → List RunResult
  | [] => []
  | p :: rest => entry maxDepth llm p.1 p.2 ++ flatRun maxDepth llm rest

/-- The drain loop of `HRM.run`, exactly as in the source: pop the front
pair, append the skip marker if the depth bound is exceeded (and spawn
nothing), otherwise execute, and if the result carries a truthy
`"fixed"` flag insert the `"verify fix"` follow-up at the front.
`fuel` bounds the number of iterations. -/
def loopF (maxDepth : Nat) (llm : Option (String → PyVal)) :
    Nat → List (Task × Nat) → List RunResult → Option (List RunResult)
  | _, [], acc => some acc.reverse
  | 0, _ :: _, _ => none
  | fuel + 1, (t, d) :: rest, acc =>
    if maxDepth < d then
      loopF maxDepth llm fuel rest (.skipped t.description :: acc)
    else
      let res := executeResult llm t
      let acc' := RunResult.executed t.id t.description d res :: acc
      if getTruthy res "fixed" then
        loopF maxDepth llm fuel ((verifyTask t d, d + 1) :: rest) acc'
      else
        loopF maxDepth llm fuel rest acc'

/-- Master lemma for `HRM.run`: with fuel at least the frontier measure
the drain loop completes, and its result is the concatenation of the
per-entry denotations (spawned follow-ups are recorded strictly before
previously queued tasks). -/
theorem hrmLoopF_eq (maxDepth : Nat) (llm : Option (String → PyVal)) :
    ∀ (fuel : Nat) (fr : List (Task × Nat)) (acc : List RunResult),
      frontMeasure maxDepth fr ≤ fuel →
      loopF maxDepth llm fuel fr acc =
        some (acc.reverse ++ flatRun maxDepth llm fr) := by
  intro fuel
  induction fuel with
  | zero =>
    intro fr acc hm
    cases fr with
    | nil => simp [loopF, flatRun]
    | cons p rest =>
      exfalso
      obtain ⟨t, d⟩ := p
      have h1 := frontWt_pos maxDepth d
      rw [frontMeasure_cons] at hm
      omega
  | succ fuel ih =>
    intro fr acc hm
    cases fr with
    | nil => simp [loopF, flatRun]
    | cons p rest =>
      obtain ⟨t, d⟩ := p
      rw [frontMeasure_cons] at hm
      have hwt := frontWt_pos maxDepth d
      by_cases hd : maxDepth < d
      · rw [loopF, if_pos hd, ih rest _ (by omega)]
        rw [flatRun, hrmEntry_skip maxDepth llm t d hd]
        simp
      · have hchild : frontWt maxDepth d = 3 * frontWt maxDepth (d + 1) :=
          frontWt_child maxDepth d (by omega)
        have hcpos := frontWt_pos maxDepth (d + 1)
        by_cases hfix : getTruthy (executeResult llm t) "fixed"
        · rw [loopF, if_neg hd]
          simp only [hfix, if_true]
          rw [ih _ _ (by rw [frontMeasure_cons]; omega)]
          conv_rhs => rw [flatRun, hrmEntry_exec maxDepth llm t d hd]
          simp only [hfix, if_true]
          simp [flatRun, List.append_assoc]
        · rw [loopF, if_neg hd]
          simp only [hfix, if_false]
          rw [ih rest _ (by omega)]
          rw [flatRun, hrmEntry_exec maxDepth llm t d hd]
          simp only [hfix, if_false]
          simp [flatRun]

/-- `HRM.__init__` sets `self.max_depth = 3`. -/
def hrmMaxDepth : Nat := 3

end CoreA

namespace CoreA

/-! ### `alan_core/memory.py`

`Memory.write` stores `asdict(item)` (a plain dict) in both partitions,
while `Memory.__init__` loads long-term entries as `MemoryItem(**v)`
*objects*.  `retrieve` calls `.get` on pool elements, which succeeds on
dicts and raises `AttributeError` on `MemoryItem` objects.  The embedding
keeps that distinction: `Stored.dict` vs `Stored.obj`, and `storedGet`
returns `Except.error` (a raised exception) on objects. -/

/-- `alan_core/memory.py` `MemoryItem` fields (`content` is the
JSON-serialized payload string). -/
structure MemoryItem where
  id : String
  ts : ℚ
  kind : String
  content : String
deriving DecidableEq, Repr

/-- A value stored in the `Memory` partitions: `asdict(item)` from
`write`, or a `MemoryItem(**v)` object from `__init__`'s load. -/
inductive Stored where
  | dict (item : MemoryItem)
  | obj (item : MemoryItem)
deriving DecidableEq, Repr

/-- The on-disk JSON document: identity → item fields, in insertion
order. -/
abbrev FileData := List (String × MemoryItem)

/-- `alan_core` `Memory` state; `file` is the content of
`self.long_term_path` on disk. -/
structure Memory where
  short : List Stored := []
  long : List (String × Stored) := []
  file : Option FileData := none
deriving DecidableEq, Repr

/-- `Memory.__init__(long_term_path)`: if the file exists and parses,
every entry becomes a `MemoryItem(**v)` *object* in the long-term map;
a missing or malformed file yields an empty long-term map. -/
def memInit (disk : Option FileData) : Memory :=
  match disk with
  | some data =>
    { short := [], long := data.map (fun kv => (kv.1, Stored.obj kv.2)), file := disk }
  | none => { short := [], long := [], file := none }

/-- `json.dump(self.long, ...)` succeeds only when every stored value is
a plain dict; a `MemoryItem` object is not JSON-serializable, the raised
`TypeError` is swallowed by `_flush`'s `except`. -/
def serializeLong : List (String × Stored) → Option FileData
  | [] => some []
  | (k, .dict item) :: rest => (serializeLong rest).map (fun r => (k, item) :: r)
  | (_, .obj _) :: _ => none

/-- `Memory._flush`: best-effort dump of the long-term map; on
serialization failure the exception is swallowed and the disk is left
unchanged. -/
def memFlush (mem : Memory) : Memory :=
  match serializeLong mem.long with
  | some data => { mem with file := some data }
  | none => mem

/-- `Memory.write` of `alan_core/memory.py`: build the item (fresh id
and timestamp supplied by the environment), store `asdict(item)`, flush
when long-term, else bounded append (bound 200) to short-term. -/
def memWrite (mem : Memory) (id : String) (ts : ℚ) (kind content : String)
    (long_term : Bool) : Memory :=
  let item : MemoryItem := { id := id, ts := ts, kind := kind, content := content }
  if long_term then
    memFlush { mem with long := dictInsert mem.long item.id (.dict item) }
  else
    { mem with short := boundedAppend 200 mem.short (.dict item) }

/-- Python `i.get(k, "")` on a pool element: fine on a dict, raises
`AttributeError` on a `MemoryItem` object. -/
def storedGet (s : Stored) (k : String) : Except String String :=
  match s with
  | .dict item =>
    .ok (if k = "content" then item.content
         else if k = "kind" then item.kind
         else if k = "id" then item.id else "")
  | .obj _ => .error "AttributeError: 'MemoryItem' object has no attribute 'get'"

/-- The filtering loop of `Memory.retrieve` for a truthy query `q`
(already lowercased): keep the items whose content or kind contains `q`;
any `.get` on a loaded object raises. -/
def retrieveFilter (q : String) : List Stored → Except String (List Stored)
  | [] => .ok []
  | i :: rest => do
    let c ← storedGet i "content"
    let k ← storedGet i "kind"
    let r ← retrieveFilter q rest
    if strHasSub q (strLower c) || strHasSub q k then pure (i :: r) else pure r

/-- `Memory.retrieve` of `alan_core/memory.py` (filter + truncate; this
generation does no scoring or sorting).  `q = none` or `q = some ""` is
falsy and returns the pool prefix directly. -/
def memRetrieve (mem : Memory) (q : Option String) (limit : Nat) :
    Except String (List Stored) :=
  let pool := mem.short ++ mem.long.map Prod.snd
  match q with
  | some qs =>
    if qs ≠ "" then do
      let r ← retrieveFilter (strLower qs) pool
      pure (r.take limit)
    else pure (pool.take limit)
  | none => pure (pool.take limit)

end CoreA

/-! ## Top-level runs -/

/-- `AlanCore.__init__` sets `self.max_depth = 2`. -/
def alanMaxDepth : Nat := 2

/-- `AlanCore.process`, from raw text to the accumulated results list
(`gen` supplies the planner's uuids, `gen2` the loop's spawned-task
uuids; the surrounding memory writes and the final rendering do not
affect the results list).  Fuel is the frontier measure of the initial
frontier, which `Eng.engLoopF_eq` proves sufficient. -/
def alanProcess (gen gen2 : Nat → String) (raw : String) :
    Option (List RunResult × Nat) :=
  let tasks := Eng.plan gen (Eng.preprocess raw)
  let fr := tasks.map (fun t => (t, 1))
  Eng.loopF gen2 alanMaxDepth (frontMeasure alanMaxDepth fr) fr [] 0

/-- `HRM.run`, from a processed input record to the results list (the
final `last_results` memory write appends the finished list to short-term
memory and does not affect it). -/
def hrmRun (llm : Option (String → PyVal)) (gen : Nat → String)
    (inp : CoreA.InputRecord) : Option (List RunResult) :=
  let tasks := CoreA.plan gen inp
  let fr := tasks.map (fun t => (t, 1))
  CoreA.loopF CoreA.hrmMaxDepth llm (frontMeasure CoreA.hrmMaxDepth fr) fr []

/-! ## Claim theorems -/

/-- A concrete id supply standing in for the stream of `uuid.uuid4()`
draws in closed evaluations. -/
def natIds : Nat → String := fun n => "uuid-" ++ toString n

/-- A second concrete id supply: a distinct run of `uuid.uuid4()` draws. -/
def natIds2 : Nat → String := fun n => "u2-" ++ toString n

/-- C5: FIFO eviction law.  Folding writes over an empty short-term
partition keeps exactly the most recent `B` items in insertion order
whenever more than `B` items were written; one write never grows a
partition of size `≤ B` beyond `B`; and the two `Memory.write`
implementations are instances of this bounded append with `B = 200`
(`alan_core/memory.py`) and `B = 100` (`alan_core_engine.py`). -/
theorem claim_C5 (B : Nat) (xs : List CoreA.Stored) (h : B < xs.length) :
    xs.foldl (boundedAppend B) [] = xs.drop (xs.length - B)
    ∧ (∀ (s : List CoreA.Stored) (x : CoreA.Stored),
        s.length ≤ B → (boundedAppend B s x).length ≤ B)
    ∧ (∀ (mem : CoreA.Memory) (id : String) (ts : ℚ) (kind content : String),
        (CoreA.memWrite mem id ts kind content false).short =
          boundedAppend 200 mem.short (.dict ⟨id, ts, kind, content⟩))
    ∧ (∀ (mem : Eng.Memory) (id : String) (ts : ℚ) (kind content : String),
        (Eng.write mem id ts kind content false).short_term =
          boundedAppend 100 mem.short_term ⟨id, ts, kind, content, 1⟩) := by
  refine ⟨?_, ?_, ?_, ?_⟩
  · have := foldl_boundedAppend B xs [] (by simp)
    simpa using this
  · exact fun s x hs => boundedAppend_length B s x hs
  · intro mem id ts kind content
    rfl
  · intro mem id ts kind content
    rfl

theorem claim_C5_witness :
    (2 < ([CoreA.Stored.dict ⟨"a", 0, "k", "x"⟩, CoreA.Stored.dict ⟨"b", 0, "k", "y"⟩,
          CoreA.Stored.dict ⟨"c", 0, "k", "z"⟩] : List CoreA.Stored).length)
    ∧ ([CoreA.Stored.dict ⟨"a", 0, "k", "x"⟩, CoreA.Stored.dict ⟨"b", 0, "k", "y"⟩,
        CoreA.Stored.dict ⟨"c", 0, "k", "z"⟩].foldl (boundedAppend 2) [] =
       [CoreA.Stored.dict ⟨"a", 0, "k", "x"⟩, CoreA.Stored.dict ⟨"b", 0, "k", "y"⟩,
        CoreA.Stored.dict ⟨"c", 0, "k", "z"⟩].drop
          ([CoreA.Stored.dict ⟨"a", 0, "k", "x"⟩, CoreA.Stored.dict ⟨"b", 0, "k", "y"⟩,
            CoreA.Stored.dict ⟨"c", 0, "k", "z"⟩].length - 2)) :=
  ⟨by decide, (claim_C5 2 _ (by decide)).1⟩

/-- C4: `Memory.retrieve` of the engine scores every pool item with
`+10` keyword bonus `+` clamped linear recency `+` static score, returns
the pool stably sorted by descending score truncated to `limit`
(equal scores keep pool order), and an item containing the query
outscores one that does not, all else equal. -/
theorem claim_C4 (mem : Eng.Memory) (now : ℚ) (q : String) (L : Nat)
    (hq : q ≠ "") :
    (Eng.retrieve mem now q L).length ≤ L
    ∧ Eng.retrieve mem now q L =
        (sortDesc (Eng.itemScore now q) (Eng.pool mem)).take L
    ∧ (sortDesc (Eng.itemScore now q) (Eng.pool mem)).Perm (Eng.pool mem)
    ∧ (sortDesc (Eng.itemScore now q) (Eng.pool mem)).Pairwise
        (fun a b => Eng.itemScore now q b ≤ Eng.itemScore now q a)
    ∧ (∀ s : ℚ,
        (sortDesc (Eng.itemScore now q) (Eng.pool mem)).filter
            (fun z => Eng.itemScore now q z = s) =
          (Eng.pool mem).filter (fun z => Eng.itemScore now q z = s))
    ∧ (∀ i j : Eng.MemoryItem,
        strHasSub (strLower q) (strLower i.content) = true →
        strHasSub (strLower q) (strLower j.content) = false →
        max 0 (1 - (now - i.timestamp) / 3600) + i.score =
          max 0 (1 - (now - j.timestamp) / 3600) + j.score →
        Eng.itemScore now q j < Eng.itemScore now q i) := by
  refine ⟨?_, rfl, sortDesc_perm _ _, sortDesc_pairwise _ _,
    fun s => sortDesc_stable _ _ s, ?_⟩
  · exact (List.length_take _ _).trans_le (by simp)
  · intro i j hi hj hrec
    unfold Eng.itemScore
    rw [hi, hj, if_pos rfl]
    simp only [Bool.false_eq_true, if_false]
    linarith

/-- Concrete two-item memory used by the C4 witness. -/
def c4mem : Eng.Memory where
  short_term := [⟨"i1", 0, "user_input", "alan project", 1⟩]
  long_term := [("i2", ⟨"i2", 0, "note", "other", 1⟩)]

theorem claim_C4_witness :
    ("alan" ≠ "")
    ∧ ((Eng.retrieve c4mem 0 "alan" 1).length ≤ 1
    ∧ Eng.retrieve c4mem 0 "alan" 1 =
        (sortDesc (Eng.itemScore 0 "alan") (Eng.pool c4mem)).take 1
    ∧ (sortDesc (Eng.itemScore 0 "alan") (Eng.pool c4mem)).Perm (Eng.pool c4mem)
    ∧ (sortDesc (Eng.itemScore 0 "alan") (Eng.pool c4mem)).Pairwise
        (fun a b => Eng.itemScore 0 "alan" b ≤ Eng.itemScore 0 "alan" a)
    ∧ (∀ s : ℚ,
        (sortDesc (Eng.itemScore 0 "alan") (Eng.pool c4mem)).filter
            (fun z => Eng.itemScore 0 "alan" z = s) =
          (Eng.pool c4mem).filter (fun z => Eng.itemScore 0 "alan" z = s))
    ∧ (∀ i j : Eng.MemoryItem,
        strHasSub (strLower "alan") (strLower i.content) = true →
        strHasSub (strLower "alan") (strLower j.content) = false →
        max 0 (1 - ((0 : ℚ) - i.timestamp) / 3600) + i.score =
          max 0 (1 - ((0 : ℚ) - j.timestamp) / 3600) + j.score →
        Eng.itemScore 0 "alan" j < Eng.itemScore 0 "alan" i)) :=
  ⟨by decide, claim_C4 c4mem 0 "alan" 1 (by decide)⟩

/-- C10: a `Memory` loaded from an existing persistence file stores the
long-term entries as `MemoryItem` objects, and the very next `retrieve`
with a truthy query raises `AttributeError` when it calls `.get` on such
an object — it does not return normally. -/
theorem claim_C10 :
    (CoreA.memInit
        (some [("id1", { id := "id1", ts := 0, kind := "note", content := "hello" })])).long =
      [("id1", CoreA.Stored.obj { id := "id1", ts := 0, kind := "note", content := "hello" })]
    ∧ CoreA.memRetrieve
        (CoreA.memInit
          (some [("id1", { id := "id1", ts := 0, kind := "note", content := "hello" })]))
        (some "x") 10 =
      Except.error "AttributeError: 'MemoryItem' object has no attribute 'get'" :=
  ⟨rfl, rfl⟩

/-- C7: `run_shell` converts any failure of the external command runner
into an `{"error": message}` payload (and success into `{"stdout": out}`),
but an exception raised by the caller-supplied `llm_call` hook during
`Worker.execute` propagates out of the worker (`Except.error`) instead of
being converted into an `{"error": message}` result: the source has no
`try/except` around the hook call. -/
theorem claim_C7 :
    (∀ (cmd e : String),
        CoreA.runShell (fun _ => Except.error e) cmd = [("error", PyVal.str e)])
    ∧ (∀ (cmd out : String),
        CoreA.runShell (fun _ => Except.ok out) cmd = [("stdout", PyVal.str out)])
    ∧ CoreA.executeE (some fun _ => Except.error "boom")
        { id := "t1", description := "say hello", depth := 1, priority := 5 } =
      Except.error "boom" :=
  ⟨fun _ _ => rfl, fun _ _ => rfl, rfl⟩

/-- C3 counterexample: `decompose` hard-codes `depth := 1` on every
subtask, so for a parent of depth 1 no generated subtask has depth
`parent.depth + 1 = 2`. -/
theorem claim_C3_counterexample :
    ((CoreA.decompose natIds
        { id := "r", description := "analyze the logs", depth := 1, priority := 5 }).all
      (fun st => st.depth =
        ({ id := "r", description := "analyze the logs", depth := 1, priority := 5 } :
            CoreA.Task).depth + 1)) = false := by decide

/-- C3 as amended: both `decompose` implementations always return a
non-empty sequence of subtasks with non-empty descriptions, every
generated subtask has the literal depth 1 (not `parent.depth + 1` in
general), and since `plan` always hands `decompose` a freshly built root
of depth 0, every subtask of a `plan`-created parent does have depth
`parent.depth + 1 = 1`. -/
theorem claim_C3 (gen : Nat → String) (t : CoreA.Task) (t2 : Eng.Task)
    (inp : CoreA.InputRecord) (inp2 : Eng.InputRecord) :
    CoreA.decompose gen t ≠ []
    ∧ (∀ st ∈ CoreA.decompose gen t, st.description ≠ "" ∧ st.depth = 1)
    ∧ Eng.decompose gen t2 ≠ []
    ∧ (∀ st ∈ Eng.decompose gen t2, st.description ≠ "" ∧ st.depth = 1)
    ∧ (∀ st ∈ CoreA.plan gen inp, st.depth = 0 + 1)
    ∧ (∀ st ∈ Eng.plan gen inp2, st.depth = 0 + 1) := by
  refine ⟨?_, ?_, ?_, ?_, ?_, ?_⟩
  · unfold CoreA.decompose
    split_ifs <;> simp
  · intro st hst
    unfold CoreA.decompose at hst
    split_ifs at hst <;> simp only [List.mem_cons, List.mem_singleton,
      List.not_mem_nil, or_false] at hst <;>
      rcases hst with rfl | rfl | rfl <;> exact ⟨by simp, rfl⟩
  · unfold Eng.decompose
    split_ifs <;> simp
  · intro st hst
    unfold Eng.decompose at hst
    split_ifs at hst <;> simp only [List.mem_cons, List.mem_singleton,
      List.not_mem_nil, or_false] at hst <;>
      rcases hst with rfl | rfl | rfl <;> exact ⟨by simp, rfl⟩
  · intro st hst
    unfold CoreA.plan CoreA.decompose at hst
    split_ifs at hst <;> simp only [List.mem_cons, List.mem_singleton,
      List.not_mem_nil, or_false] at hst <;>
      rcases hst with rfl | rfl | rfl <;> rfl
  · intro st hst
    unfold Eng.plan Eng.decompose at hst
    split_ifs at hst <;> simp only [List.mem_cons, List.mem_singleton,
      List.not_mem_nil, or_false] at hst <;>
      rcases hst with rfl | rfl | rfl <;> rfl

theorem claim_C3_witness :
    CoreA.decompose natIds { id := "r0", description := "say hi", depth := 0, priority := 1 } ≠ []
    ∧ (∀ st ∈ CoreA.decompose natIds
          { id := "r0", description := "say hi", depth := 0, priority := 1 },
        st.description ≠ "" ∧ st.depth = 1)
    ∧ Eng.decompose natIds { id := "r0", description := "say hi", depth := 0 } ≠ []
    ∧ (∀ st ∈ Eng.decompose natIds { id := "r0", description := "say hi", depth := 0 },
        st.description ≠ "" ∧ st.depth = 1)
    ∧ (∀ st ∈ CoreA.plan natIds { text := "say hi", intent := "general" }, st.depth = 0 + 1)
    ∧ (∀ st ∈ Eng.plan natIds { text := "say hi", intent := "general" }, st.depth = 0 + 1) :=
  claim_C3 natIds
    { id := "r0", description := "say hi", depth := 0, priority := 1 }
    { id := "r0", description := "say hi", depth := 0 }
    { text := "say hi", intent := "general" }
    { text := "say hi", intent := "general" }

/-- C9 counterexample: `plan` draws fresh `uuid.uuid4()` identities on
every invocation, so two invocations on the same input (drawing
different uuids, here modelled by two different id supplies) do not
yield Task sequences equal in all fields — the `id` fields differ. -/
theorem claim_C9_counterexample :
    CoreA.plan natIds { text := "say hi", intent := "general" } ≠
      CoreA.plan natIds2 { text := "say hi", intent := "general" } := by decide

/-- The id-independent shape of a core task. -/
def taskShape (t : CoreA.Task) : String × Nat × Int := (t.description, t.depth, t.priority)

/-- The id-independent shape of an engine task. -/
def engTaskShape (t : Eng.Task) : String × Nat := (t.description, t.depth)

/-- C9 as amended: `plan` is deterministic in everything except the
freshly generated identities — for any two id supplies (two uuid4 runs),
both planners return decompositions identical in description, depth,
priority and order; with the same supply the results are identical in
all fields. -/
theorem claim_C9 (inp : CoreA.InputRecord) (inp2 : Eng.InputRecord)
    (g1 g2 : Nat → String) :
    (CoreA.plan g1 inp).map taskShape = (CoreA.plan g2 inp).map taskShape
    ∧ (Eng.plan g1 inp2).map engTaskShape = (Eng.plan g2 inp2).map engTaskShape := by
  constructor
  · unfold CoreA.plan CoreA.decompose
    split_ifs <;> rfl
  · unfold Eng.plan Eng.decompose
    split_ifs <;> rfl

/-- Python dict assignment with a fresh key appends. -/
theorem dictInsert_fresh {β : Type} (m : List (String × β)) (k : String) (v : β)
    (h : ¬ k ∈ m.map Prod.fst) : dictInsert m k v = m ++ [(k, v)] := by
  unfold dictInsert
  rw [if_neg]
  simpa using h

/-- Serializing an all-dict long-term map succeeds and strips the
`Stored.dict` wrappers. -/
theorem serializeLong_dicts (ws : List CoreA.MemoryItem) :
    CoreA.serializeLong (ws.map (fun w => (w.id, CoreA.Stored.dict w))) =
      some (ws.map (fun w => (w.id, w))) := by
  induction ws with
  | nil => rfl
  | cons w ws ih => simp [CoreA.serializeLong, ih]

/-- Folding long-term writes with pairwise-fresh identities over a
memory whose long-term map holds the dicts of `pre` appends each write
as a dict and leaves the disk holding the serialized map after the last
flush. -/
theorem memWrite_fold_long (writes : List CoreA.MemoryItem) :
    ∀ (pre : List CoreA.MemoryItem) (f0 : Option CoreA.FileData),
      ((pre ++ writes).map CoreA.MemoryItem.id).Nodup →
      writes.foldl (fun m w => CoreA.memWrite m w.id w.ts w.kind w.content true)
        { short := [], long := pre.map (fun w => (w.id, CoreA.Stored.dict w)), file := f0 } =
      { short := [],
        long := (pre ++ writes).map (fun w => (w.id, CoreA.Stored.dict w)),
        file := if writes.isEmpty then f0
                else some ((pre ++ writes).map (fun w => (w.id, w))) } := by
  induction writes with
  | nil =>
    intro pre f0 _
    simp
  | cons w ws ih =>
    intro pre f0 hnd
    rw [List.foldl_cons]
    have hsplit := List.nodup_append.mp
      (show ((pre.map CoreA.MemoryItem.id) ++ ((w :: ws).map CoreA.MemoryItem.id)).Nodup by
        simpa using hnd)
    have hfresh : ¬ w.id ∈ pre.map CoreA.MemoryItem.id := fun hmem =>
      hsplit.2.2 hmem (by simp)
    have hstep :
        CoreA.memWrite
          { short := [], long := pre.map (fun w => (w.id, CoreA.Stored.dict w)), file := f0 }
          w.id w.ts w.kind w.content true =
        { short := [],
          long := (pre ++ [w]).map (fun w => (w.id, CoreA.Stored.dict w)),
          file := some ((pre ++ [w]).map (fun w => (w.id, w))) } := by
      unfold CoreA.memWrite CoreA.memFlush
      rw [if_pos rfl]
      have hins := dictInsert_fresh (pre.map (fun w => (w.id, CoreA.Stored.dict w)))
        w.id (CoreA.Stored.dict ⟨w.id, w.ts, w.kind, w.content⟩)
        (by simpa [List.map_map, Function.comp] using hfresh)
      simp only at hins ⊢
      rw [hins]
      have : pre.map (fun w => (w.id, CoreA.Stored.dict w)) ++
          [(w.id, CoreA.Stored.dict ⟨w.id, w.ts, w.kind, w.content⟩)] =
          (pre ++ [w]).map (fun w => (w.id, CoreA.Stored.dict w)) := by
        simp
      rw [this, serializeLong_dicts]
    rw [hstep, ih (pre ++ [w]) _ (by simpa using hnd)]
    have hiff : (pre ++ [w]) ++ ws = pre ++ w :: ws := by simp
    rw [hiff]
    cases ws with
    | nil => simp
    | cons a l => simp

/-- C8: persistence round-trip.  Writing `N` long-term items with fresh
identities to a fresh store, then constructing a new `Memory` over the
flushed file, yields a long-term map with exactly `N` entries, keyed by
the same identities in the same order, each holding a `MemoryItem`
whose `kind` and `content` (and all other fields) equal the originally
written item's. -/
theorem claim_C8 (writes : List CoreA.MemoryItem)
    (hids : (writes.map CoreA.MemoryItem.id).Nodup) :
    (CoreA.memInit
        (writes.foldl (fun m w => CoreA.memWrite m w.id w.ts w.kind w.content true)
          (CoreA.memInit none)).file).long =
      writes.map (fun w => (w.id, CoreA.Stored.obj w))
    ∧ (CoreA.memInit
        (writes.foldl (fun m w => CoreA.memWrite m w.id w.ts w.kind w.content true)
          (CoreA.memInit none)).file).long.length = writes.length
    ∧ (CoreA.memInit
        (writes.foldl (fun m w => CoreA.memWrite m w.id w.ts w.kind w.content true)
          (CoreA.memInit none)).file).long.map Prod.fst =
      writes.map CoreA.MemoryItem.id := by
  have hfold := memWrite_fold_long writes [] none (by simpa using hids)
  have hinit : (CoreA.memInit none) =
      ({ short := [], long := ([] : List CoreA.MemoryItem).map
          (fun w => (w.id, CoreA.Stored.dict w)), file := none } : CoreA.Memory) := rfl
  rw [hinit, hfold]
  cases writes with
  | nil => exact ⟨rfl, rfl, rfl⟩
  | cons w ws =>
    refine ⟨?_, ?_, ?_⟩
    · simp [CoreA.memInit, List.map_map, Function.comp]
    · simp [CoreA.memInit]
    · simp [CoreA.memInit, List.map_map, Function.comp]

theorem claim_C8_witness :
    (([⟨"ida", 0, "note", "alpha"⟩, ⟨"idb", 1, "note", "beta"⟩] :
        List CoreA.MemoryItem).map CoreA.MemoryItem.id).Nodup
    ∧ (CoreA.memInit
        (([⟨"ida", 0, "note", "alpha"⟩, ⟨"idb", 1, "note", "beta"⟩] :
            List CoreA.MemoryItem).foldl
          (fun m w => CoreA.memWrite m w.id w.ts w.kind w.content true)
          (CoreA.memInit none)).file).long =
      ([⟨"ida", 0, "note", "alpha"⟩, ⟨"idb", 1, "note", "beta"⟩] :
          List CoreA.MemoryItem).map (fun w => (w.id, CoreA.Stored.obj w)) :=
  ⟨by decide, (claim_C8 _ (by decide)).1⟩

/-- Every executed record in an HRM entry denotation was executed at a
depth within the bound. -/
theorem hrmEntry_depth (maxDepth : Nat) (llm : Option (String → PyVal)) :
    ∀ (t : CoreA.Task) (d : Nat) (tid desc : String) (dep : Nat) (p : Payload),
      RunResult.executed tid desc dep p ∈ CoreA.entry maxDepth llm t d →
      dep ≤ maxDepth := by
  intro t d
  induction t, d using CoreA.entry.induct maxDepth llm with
  | case1 t d h =>
    intro tid desc dep p hmem
    rw [CoreA.hrmEntry_skip maxDepth llm t d h] at hmem
    simp at hmem
  | case2 t d h ih =>
    intro tid desc dep p hmem
    rw [CoreA.hrmEntry_exec maxDepth llm t d h] at hmem
    rcases List.mem_cons.mp hmem with heq | hmem2
    · cases heq
      omega
    · by_cases hfix : getTruthy (CoreA.executeResult llm t) "fixed" = true
      · rw [if_pos hfix] at hmem2
        exact ih tid desc dep p hmem2
      · rw [if_neg hfix] at hmem2
        simp at hmem2

/-- Every executed record in the HRM frontier denotation was executed at
a depth within the bound. -/
theorem hrmFlat_depth (maxDepth : Nat) (llm : Option (String → PyVal)) :
    ∀ (fr : List (CoreA.Task × Nat)) (tid desc : String) (dep : Nat) (p : Payload),
      RunResult.executed tid desc dep p ∈ CoreA.flatRun maxDepth llm fr →
      dep ≤ maxDepth := by
  intro fr
  induction fr with
  | nil =>
    intro tid desc dep p hmem
    simp [CoreA.flatRun] at hmem
  | cons q rest ih =>
    intro tid desc dep p hmem
    rw [CoreA.flatRun] at hmem
    rcases List.mem_append.mp hmem with hin | hin
    · exact hrmEntry_depth maxDepth llm q.1 q.2 tid desc dep p hin
    · exact ih tid desc dep p hin

/-- Every executed record in an engine entry denotation was executed at
a depth within the bound. -/
theorem engEntry_depth (gen : Nat → String) (maxDepth : Nat) :
    ∀ (t : Eng.Task) (d ctr : Nat) (tid desc : String) (dep : Nat) (p : Payload),
      RunResult.executed tid desc dep p ∈ (Eng.entry gen maxDepth t d ctr).1 →
      dep ≤ maxDepth := by
  intro t d ctr
  induction t, d, ctr using Eng.entry.induct gen maxDepth with
  | case1 t d ctr h =>
    intro tid desc dep p hmem
    rw [Eng.engEntry_skip gen maxDepth t d ctr h] at hmem
    simp at hmem
  | case2 t d ctr h hs readme src rSrc ihA ihB ihC =>
    intro tid desc dep p hmem
    rw [Eng.engEntry_spawn gen maxDepth t d ctr h hs] at hmem
    simp only [List.mem_cons, List.mem_append] at hmem
    rcases hmem with heq | hin | hin
    · cases heq
      omega
    · exact ihB tid desc dep p hin
    · exact ihC tid desc dep p hin
  | case3 t d ctr h hs =>
    intro tid desc dep p hmem
    rw [Eng.engEntry_plain gen maxDepth t d ctr h hs] at hmem
    rcases List.mem_cons.mp hmem with heq | hin
    · cases heq
      omega
    · simp at hin

/-- Every executed record in the engine frontier denotation was executed
at a depth within the bound. -/
theorem engFlat_depth (gen : Nat → String) (maxDepth : Nat) :
    ∀ (fr : List (Eng.Task × Nat)) (ctr : Nat) (tid desc : String) (dep : Nat)
      (p : Payload),
      RunResult.executed tid desc dep p ∈ (Eng.flatRun gen maxDepth fr ctr).1 →
      dep ≤ maxDepth := by
  intro fr
  induction fr with
  | nil =>
    intro ctr tid desc dep p hmem
    simp [Eng.flatRun] at hmem
  | cons q rest ih =>
    intro ctr tid desc dep p hmem
    rw [Eng.flatRun] at hmem
    rcases List.mem_append.mp hmem with hin | hin
    · exact engEntry_depth gen maxDepth q.1 q.2 ctr tid desc dep p hin
    · exact ih _ tid desc dep p hin

/-- C1: depth invariant, for both orchestrator loops.  A popped pair
whose depth exceeds the bound appends exactly the `skipped` marker and
hands the untouched remaining frontier to the next iteration (so it is
never passed to the worker and spawns nothing — its whole denotation is
the one marker); and in any completed run every executed record's
frontier depth is at most the bound. -/
theorem claim_C1 (maxDepth : Nat) (llm : Option (String → PyVal))
    (gen2 : Nat → String) :
    (∀ (fuel : Nat) (t : CoreA.Task) (d : Nat) (rest : List (CoreA.Task × Nat))
        (acc : List RunResult), maxDepth < d →
      CoreA.loopF maxDepth llm (fuel + 1) ((t, d) :: rest) acc =
        CoreA.loopF maxDepth llm fuel rest (.skipped t.description :: acc))
    ∧ (∀ (t : CoreA.Task) (d : Nat), maxDepth < d →
        CoreA.entry maxDepth llm t d = [.skipped t.description])
    ∧ (∀ (fr : List (CoreA.Task × Nat)) (res : List RunResult),
        CoreA.loopF maxDepth llm (frontMeasure maxDepth fr) fr [] = some res →
        ∀ (tid desc : String) (dep : Nat) (p : Payload),
          RunResult.executed tid desc dep p ∈ res → dep ≤ maxDepth)
    ∧ (∀ (fuel : Nat) (t : Eng.Task) (d : Nat) (rest : List (Eng.Task × Nat))
        (acc : List RunResult) (ctr : Nat), maxDepth < d →
      Eng.loopF gen2 maxDepth (fuel + 1) ((t, d) :: rest) acc ctr =
        Eng.loopF gen2 maxDepth fuel rest (.skipped t.description :: acc) ctr)
    ∧ (∀ (t : Eng.Task) (d ctr : Nat), maxDepth < d →
        Eng.entry gen2 maxDepth t d ctr = ([.skipped t.description], ctr))
    ∧ (∀ (fr : List (Eng.Task × Nat)) (res : List RunResult) (ctr' : Nat),
        Eng.loopF gen2 maxDepth (frontMeasure maxDepth fr) fr [] 0 = some (res, ctr') →
        ∀ (tid desc : String) (dep : Nat) (p : Payload),
          RunResult.executed tid desc dep p ∈ res → dep ≤ maxDepth) := by
  refine ⟨?_, ?_, ?_, ?_, ?_, ?_⟩
  · intro fuel t d rest acc hd
    rw [CoreA.loopF, if_pos hd]
  · intro t d hd
    exact CoreA.hrmEntry_skip maxDepth llm t d hd
  · intro fr res hrun tid desc dep p hmem
    rw [CoreA.hrmLoopF_eq maxDepth llm _ fr [] (le_refl _)] at hrun
    have hres : res = CoreA.flatRun maxDepth llm fr := by
      cases hrun
      simp
    rw [hres] at hmem
    exact hrmFlat_depth maxDepth llm fr tid desc dep p hmem
  · intro fuel t d rest acc ctr hd
    rw [Eng.loopF, if_pos hd]
  · intro t d ctr hd
    exact Eng.engEntry_skip gen2 maxDepth t d ctr hd
  · intro fr res ctr' hrun tid desc dep p hmem
    rw [Eng.engLoopF_eq gen2 maxDepth _ fr [] 0 (le_refl _)] at hrun
    have hres : res = (Eng.flatRun gen2 maxDepth fr 0).1 := by
      cases hrun
      simp
    rw [hres] at hmem
    exact engFlat_depth gen2 maxDepth fr 0 tid desc dep p hmem

/-- C1 witness: the invariant instantiated at the configured bounds and
concrete id supplies. -/
theorem claim_C1_witness :
    (∀ (fuel : Nat) (t : CoreA.Task) (d : Nat) (rest : List (CoreA.Task × Nat))
        (acc : List RunResult), CoreA.hrmMaxDepth < d →
      CoreA.loopF CoreA.hrmMaxDepth none (fuel + 1) ((t, d) :: rest) acc =
        CoreA.loopF CoreA.hrmMaxDepth none fuel rest (.skipped t.description :: acc))
    ∧ (∀ (t : CoreA.Task) (d : Nat), CoreA.hrmMaxDepth < d →
        CoreA.entry CoreA.hrmMaxDepth none t d = [.skipped t.description])
    ∧ (∀ (fr : List (CoreA.Task × Nat)) (res : List RunResult),
        CoreA.loopF CoreA.hrmMaxDepth none (frontMeasure CoreA.hrmMaxDepth fr) fr [] = some res →
        ∀ (tid desc : String) (dep : Nat) (p : Payload),
          RunResult.executed tid desc dep p ∈ res → dep ≤ CoreA.hrmMaxDepth)
    ∧ (∀ (fuel : Nat) (t : Eng.Task) (d : Nat) (rest : List (Eng.Task × Nat))
        (acc : List RunResult) (ctr : Nat), CoreA.hrmMaxDepth < d →
      Eng.loopF natIds CoreA.hrmMaxDepth (fuel + 1) ((t, d) :: rest) acc ctr =
        Eng.loopF natIds CoreA.hrmMaxDepth fuel rest (.skipped t.description :: acc) ctr)
    ∧ (∀ (t : Eng.Task) (d ctr : Nat), CoreA.hrmMaxDepth < d →
        Eng.entry natIds CoreA.hrmMaxDepth t d ctr = ([.skipped t.description], ctr))
    ∧ (∀ (fr : List (Eng.Task × Nat)) (res : List RunResult) (ctr' : Nat),
        Eng.loopF natIds CoreA.hrmMaxDepth (frontMeasure CoreA.hrmMaxDepth fr) fr [] 0 =
            some (res, ctr') →
        ∀ (tid desc : String) (dep : Nat) (p : Payload),
          RunResult.executed tid desc dep p ∈ res → dep ≤ CoreA.hrmMaxDepth) :=
  claim_C1 CoreA.hrmMaxDepth none natIds

/-- C2 counterexample: on `"Create a new project"` the engine's
`"scaffold project structure"` task (popped at depth 1) spawns
`sub = [create README, create src folder]` in that order, but because
each child is inserted at index 0 in turn, the run records
`"create src folder"` strictly before `"create README"` — the spawn
batch appears in reversed relative order (the spec's scenario expects
README first). -/
theorem claim_C2_counterexample :
    (alanProcess natIds natIds "Create a new project").map
        (fun p => p.1.map RunResult.about) =
      some ["scaffold project structure", "create src folder", "create README",
            "create core modules", "write basic tests"] := by decide

/-- C2 as amended: everything a popped task produces — its own record
and the records of all its dynamically spawned descendants — appears in
the result list strictly before the records of the tasks that were
already queued behind it (children are inserted at the front of the
frontier); but within one spawn batch the engine inserts each child at
index 0 in turn, so two simultaneously spawned children appear in
*reverse* spawn order: the second-spawned `"create src folder"` subtree
is recorded before the first-spawned `"create README"` subtree. -/
theorem claim_C2 (maxDepth : Nat) (llm : Option (String → PyVal))
    (gen2 : Nat → String) :
    (∀ (t : CoreA.Task) (d : Nat) (rest : List (CoreA.Task × Nat)) (fuel : Nat),
        frontMeasure maxDepth ((t, d) :: rest) ≤ fuel →
        CoreA.loopF maxDepth llm fuel ((t, d) :: rest) [] =
          some (CoreA.entry maxDepth llm t d ++ CoreA.flatRun maxDepth llm rest))
    ∧ (∀ (t : CoreA.Task) (d : Nat), ¬ maxDepth < d →
        getTruthy (CoreA.executeResult llm t) "fixed" = true →
        CoreA.entry maxDepth llm t d =
          RunResult.executed t.id t.description d (CoreA.executeResult llm t) ::
            CoreA.entry maxDepth llm (CoreA.verifyTask t d) (d + 1))
    ∧ (∀ (t : Eng.Task) (d : Nat) (rest : List (Eng.Task × Nat)) (fuel ctr : Nat),
        frontMeasure maxDepth ((t, d) :: rest) ≤ fuel →
        Eng.loopF gen2 maxDepth fuel ((t, d) :: rest) [] ctr =
          some ((Eng.entry gen2 maxDepth t d ctr).1 ++
                  (Eng.flatRun gen2 maxDepth rest (Eng.entry gen2 maxDepth t d ctr).2).1,
                (Eng.flatRun gen2 maxDepth rest (Eng.entry gen2 maxDepth t d ctr).2).2))
    ∧ (∀ (t : Eng.Task) (d ctr : Nat), ¬ maxDepth < d →
        strHasSub "scaffold" t.description = true → d < maxDepth →
        (Eng.entry gen2 maxDepth t d ctr).1 =
          RunResult.executed t.id t.description d (Eng.executeResult t) ::
            ((Eng.entry gen2 maxDepth
                ⟨gen2 (ctr + 1), "create src folder", d + 1⟩ (d + 1) (ctr + 2)).1 ++
             (Eng.entry gen2 maxDepth
                ⟨gen2 ctr, "create README", d + 1⟩ (d + 1)
                (Eng.entry gen2 maxDepth
                  ⟨gen2 (ctr + 1), "create src folder", d + 1⟩ (d + 1) (ctr + 2)).2).1)) := by
  refine ⟨?_, ?_, ?_, ?_⟩
  · intro t d rest fuel hm
    rw [CoreA.hrmLoopF_eq maxDepth llm fuel _ [] hm]
    rw [CoreA.flatRun]
    simp
  · intro t d hd hfix
    rw [CoreA.hrmEntry_exec maxDepth llm t d hd, if_pos hfix]
  · intro t d rest fuel ctr hm
    rw [Eng.engLoopF_eq gen2 maxDepth fuel _ [] ctr hm]
    rw [Eng.flatRun]
    simp
  · intro t d ctr hd hsc hlt
    rw [Eng.engEntry_spawn gen2 maxDepth t d ctr hd ⟨hsc, hlt⟩]

/-- C2 witness: the amended ordering law instantiated at the engine's
configured bound and a concrete id supply. -/
theorem claim_C2_witness :
    (∀ (t : CoreA.Task) (d : Nat) (rest : List (CoreA.Task × Nat)) (fuel : Nat),
        frontMeasure alanMaxDepth ((t, d) :: rest) ≤ fuel →
        CoreA.loopF alanMaxDepth none fuel ((t, d) :: rest) [] =
          some (CoreA.entry alanMaxDepth none t d ++ CoreA.flatRun alanMaxDepth none rest))
    ∧ (∀ (t : CoreA.Task) (d : Nat), ¬ alanMaxDepth < d →
        getTruthy (CoreA.executeResult none t) "fixed" = true →
        CoreA.entry alanMaxDepth none t d =
          RunResult.executed t.id t.description d (CoreA.executeResult none t) ::
            CoreA.entry alanMaxDepth none (CoreA.verifyTask t d) (d + 1))
    ∧ (∀ (t : Eng.Task) (d : Nat) (rest : List (Eng.Task × Nat)) (fuel ctr : Nat),
        frontMeasure alanMaxDepth ((t, d) :: rest) ≤ fuel →
        Eng.loopF natIds alanMaxDepth fuel ((t, d) :: rest) [] ctr =
          some ((Eng.entry natIds alanMaxDepth t d ctr).1 ++
                  (Eng.flatRun natIds alanMaxDepth rest (Eng.entry natIds alanMaxDepth t d ctr).2).1,
                (Eng.flatRun natIds alanMaxDepth rest (Eng.entry natIds alanMaxDepth t d ctr).2).2))
    ∧ (∀ (t : Eng.Task) (d ctr : Nat), ¬ alanMaxDepth < d →
        strHasSub "scaffold" t.description = true → d < alanMaxDepth →
        (Eng.entry natIds alanMaxDepth t d ctr).1 =
          RunResult.executed t.id t.description d (Eng.executeResult t) ::
            ((Eng.entry natIds alanMaxDepth
                ⟨natIds (ctr + 1), "create src folder", d + 1⟩ (d + 1) (ctr + 2)).1 ++
             (Eng.entry natIds alanMaxDepth
                ⟨natIds ctr, "create README", d + 1⟩ (d + 1)
                (Eng.entry natIds alanMaxDepth
                  ⟨natIds (ctr + 1), "create src folder", d + 1⟩ (d + 1) (ctr + 2)).2).1)) :=
  claim_C2 alanMaxDepth none natIds

/-- Number of tasks the HRM loop dynamically spawns while draining one
frontier entry (the `"verify fix"` chain). -/
def hrmSpawnCount (maxDepth : Nat) (llm : Option (String → PyVal))
    (t : CoreA.Task) (d : Nat) : Nat :=
  if _h : maxDepth < d then 0
  else if getTruthy (CoreA.executeResult llm t) "fixed" then
    1 + hrmSpawnCount maxDepth llm (CoreA.verifyTask t d) (d + 1)
  else 0
termination_by maxDepth + 2 - d
decreasing_by omega

/-- Each frontier entry contributes exactly one record for itself plus
one for every task it transitively spawns. -/
theorem hrmEntry_length (maxDepth : Nat) (llm : Option (String → PyVal)) :
    ∀ (t : CoreA.Task) (d : Nat),
      (CoreA.entry maxDepth llm t d).length = 1 + hrmSpawnCount maxDepth llm t d := by
  intro t d
  induction t, d using CoreA.entry.induct maxDepth llm with
  | case1 t d h =>
    rw [CoreA.hrmEntry_skip maxDepth llm t d h, hrmSpawnCount, dif_pos h]
    rfl
  | case2 t d h ih =>
    rw [CoreA.hrmEntry_exec maxDepth llm t d h, hrmSpawnCount, dif_neg h]
    by_cases hfix : getTruthy (CoreA.executeResult llm t) "fixed" = true
    · rw [if_pos hfix, if_pos hfix]
      simp [ih]
      omega
    · rw [if_neg hfix, if_neg hfix]
      rfl

/-- Number of tasks the engine loop dynamically spawns while draining
one frontier entry; it depends only on the description and depth. -/
def engSpawnCount (maxDepth : Nat) (desc : String) (d : Nat) : Nat :=
  if maxDepth < d then 0
  else if _h : strHasSub "scaffold" desc = true ∧ d < maxDepth then
    2 + engSpawnCount maxDepth "create src folder" (d + 1)
      + engSpawnCount maxDepth "create README" (d + 1)
  else 0
termination_by maxDepth - d
decreasing_by all_goals omega

/-- Engine version of `hrmEntry_length`: one record per placed task. -/
theorem engEntry_length (gen : Nat → String) (maxDepth : Nat) :
    ∀ (t : Eng.Task) (d ctr : Nat),
      (Eng.entry gen maxDepth t d ctr).1.length =
        1 + engSpawnCount maxDepth t.description d := by
  intro t d ctr
  induction t, d, ctr using Eng.entry.induct gen maxDepth with
  | case1 t d ctr h =>
    rw [Eng.engEntry_skip gen maxDepth t d ctr h, engSpawnCount, if_pos h]
    rfl
  | case2 t d ctr h hs readme src rSrc ihA ihB ihC =>
    rw [Eng.engEntry_spawn gen maxDepth t d ctr h hs]
    rw [engSpawnCount, if_neg h, dif_pos hs]
    simp only [List.length_cons, List.length_append]
    rw [ihB, ihC]
    simp
    omega
  | case3 t d ctr h hs =>
    rw [Eng.engEntry_plain gen maxDepth t d ctr h hs]
    rw [engSpawnCount, if_neg h, dif_neg hs]
    rfl

/-- Frontier version of `hrmEntry_length`. -/
theorem hrmFlat_length (maxDepth : Nat) (llm : Option (String → PyVal)) :
    ∀ (fr : List (CoreA.Task × Nat)),
      (CoreA.flatRun maxDepth llm fr).length =
        fr.length + (fr.map (fun p => hrmSpawnCount maxDepth llm p.1 p.2)).sum := by
  intro fr
  induction fr with
  | nil => rfl
  | cons q rest ih =>
    rw [CoreA.flatRun]
    simp only [List.length_append, List.length_cons, List.map_cons, List.sum_cons,
      hrmEntry_length maxDepth llm q.1 q.2, ih]
    omega

/-- Frontier version of `engEntry_length`. -/
theorem engFlat_length (gen : Nat → String) (maxDepth : Nat) :
    ∀ (fr : List (Eng.Task × Nat)) (ctr : Nat),
      (Eng.flatRun gen maxDepth fr ctr).1.length =
        fr.length + (fr.map (fun p => engSpawnCount maxDepth p.1.description p.2)).sum := by
  intro fr
  induction fr with
  | nil => intro ctr; rfl
  | cons q rest ih =>
    intro ctr
    rw [Eng.flatRun]
    simp only [List.length_append, List.length_cons, List.map_cons, List.sum_cons,
      engEntry_length gen maxDepth q.1 q.2, ih]
    omega

/-- C6: total completion.  Both orchestrator runs, given fuel equal to
the initial frontier measure, drain the frontier and return a result
list; every entry of that list is an execution record or a skip marker;
and the list has exactly one record per task ever placed on the frontier
(initially planned tasks plus dynamically spawned ones). -/
theorem claim_C6 (llm : Option (String → PyVal)) (gen gen1 gen2 : Nat → String)
    (inp : CoreA.InputRecord) (raw : String) :
    (∃ res, hrmRun llm gen inp = some res
      ∧ res.length = (CoreA.plan gen inp).length +
          ((CoreA.plan gen inp).map
            (fun t => hrmSpawnCount CoreA.hrmMaxDepth llm t 1)).sum
      ∧ ∀ r ∈ res, (∃ tid desc dep p, r = RunResult.executed tid desc dep p)
          ∨ (∃ s, r = RunResult.skipped s))
    ∧ (∃ res ctr, alanProcess gen1 gen2 raw = some (res, ctr)
      ∧ res.length = (Eng.plan gen1 (Eng.preprocess raw)).length +
          ((Eng.plan gen1 (Eng.preprocess raw)).map
            (fun t => engSpawnCount alanMaxDepth t.description 1)).sum
      ∧ ∀ r ∈ res, (∃ tid desc dep p, r = RunResult.executed tid desc dep p)
          ∨ (∃ s, r = RunResult.skipped s)) := by
  constructor
  · refine ⟨CoreA.flatRun CoreA.hrmMaxDepth llm
      ((CoreA.plan gen inp).map (fun t => (t, 1))), ?_, ?_, ?_⟩
    · unfold hrmRun
      rw [CoreA.hrmLoopF_eq CoreA.hrmMaxDepth llm _ _ [] (le_refl _)]
      simp
    · rw [hrmFlat_length]
      simp only [List.length_map, List.map_map]
      rfl
    · intro r _
      cases r with
      | executed tid desc dep p => exact Or.inl ⟨tid, desc, dep, p, rfl⟩
      | skipped s => exact Or.inr ⟨s, rfl⟩
  · refine ⟨(Eng.flatRun gen2 alanMaxDepth
        ((Eng.plan gen1 (Eng.preprocess raw)).map (fun t => (t, 1))) 0).1,
      (Eng.flatRun gen2 alanMaxDepth
        ((Eng.plan gen1 (Eng.preprocess raw)).map (fun t => (t, 1))) 0).2, ?_, ?_, ?_⟩
    · unfold alanProcess
      rw [Eng.engLoopF_eq gen2 alanMaxDepth _ _ [] 0 (le_refl _)]
      simp
    · rw [engFlat_length]
      simp only [List.length_map, List.map_map]
      rfl
    · intro r _
      cases r with
      | executed tid desc dep p => exact Or.inl ⟨tid, desc, dep, p, rfl⟩
      | skipped s => exact Or.inr ⟨s, rfl⟩

/-- C6 witness: total completion instantiated at a concrete input and
concrete id supplies. -/
theorem claim_C6_witness :
    (∃ res, hrmRun none natIds { text := "please fix the crash", intent := "debug" } = some res
      ∧ res.length = (CoreA.plan natIds
            { text := "please fix the crash", intent := "debug" }).length +
          ((CoreA.plan natIds { text := "please fix the crash", intent := "debug" }).map
            (fun t => hrmSpawnCount CoreA.hrmMaxDepth none t 1)).sum
      ∧ ∀ r ∈ res, (∃ tid desc dep p, r = RunResult.executed tid desc dep p)
          ∨ (∃ s, r = RunResult.skipped s))
    ∧ (∃ res ctr, alanProcess natIds natIds2 "Create a new project" = some (res, ctr)
      ∧ res.length = (Eng.plan natIds (Eng.preprocess "Create a new project")).length +
          ((Eng.plan natIds (Eng.preprocess "Create a new project")).map
            (fun t => engSpawnCount alanMaxDepth t.description 1)).sum
      ∧ ∀ r ∈ res, (∃ tid desc dep p, r = RunResult.executed tid desc dep p)
          ∨ (∃ s, r = RunResult.skipped s)) :=
  claim_C6 none natIds natIds natIds2
    { text := "please fix the crash", intent := "debug" } "Create a new project"
